import Mathlib

/-!
Verification of the delay-discounting MVPA first-level analysis pipeline.

Shallow embedding of the numerical core of the repository
(`fmri_model.py`, `fmri_io.py`, `design_utils.py`, `io_utils.py`,
`run_lsa.py`).  Machine floating-point arithmetic is embedded as exact
rational arithmetic (`ℚ`); library transcendentals (`np.cos`, `np.pi`)
and the nilearn SPM HRF are abstract parameters supplied to the
embedded functions, since they are external library inputs rather than
code of this repository.
-/

namespace DDMvpa

open Matrix BigOperators Finset

/- ### `fmri_model.compute_betas` -/

/-- Explicit inverse of a square rational matrix, `(det M)⁻¹ • adjugate M`.
Over the field `ℚ` this is computable and agrees with Mathlib's
noncomputable `M⁻¹` (see `matInv_eq_inv`); it embeds `np.linalg.inv`. -/
def matInv {p : ℕ} (M : Matrix (Fin p) (Fin p) ℚ) : Matrix (Fin p) (Fin p) ℚ :=
  (M.det)⁻¹ • M.adjugate

/-- `compute_betas` from `fmri_model.py`:
`XtX_inv = np.linalg.inv(X.T @ X)`; `betas = (XtX_inv @ X.T) @ Y`
(the `einsum` call is the matrix product of `XtX_inv @ X.T` with `Y`). -/
def compute_betas {t p v : ℕ} (X : Matrix (Fin t) (Fin p) ℚ)
    (Y : Matrix (Fin t) (Fin v) ℚ) : Matrix (Fin p) (Fin v) ℚ :=
  (matInv (Xᵀ * X) * Xᵀ) * Y

/-- Residual sum of squares `‖y - X b‖²` of a candidate coefficient
vector `b` for one data column `y`. -/
def residSS {t p : ℕ} (X : Matrix (Fin t) (Fin p) ℚ) (y : Fin t → ℚ)
    (b : Fin p → ℚ) : ℚ :=
  ∑ i, (y i - X.mulVec b i) ^ 2

/- ### `fmri_io.calculate_grand_mean_scale` -/

/-- Grand mean of a 2-D (timepoints × voxels) data array, `np.ndarray.mean`:
the sum of all entries divided by the number of entries. -/
def grandMean {t v : ℕ} (D : Matrix (Fin t) (Fin v) ℚ) : ℚ :=
  (∑ i, ∑ j, D i j) / ((t : ℚ) * v)

/-- `calculate_grand_mean_scale` from `fmri_io.py`, acting on the
brain-masked data array: `scale_factor = 100.0 / grand_mean`;
`scaled_brain_data = brain_data * scale_factor` (elementwise). -/
def calculate_grand_mean_scale {t v : ℕ} (D : Matrix (Fin t) (Fin v) ℚ) :
    ℚ × Matrix (Fin t) (Fin v) ℚ :=
  let scale_factor := 100 / grandMean D
  (scale_factor, Matrix.of fun i j => D i j * scale_factor)

/- ### `design_utils.make_stick_array` -/

/-- Normalize one bound of a Python/numpy slice on an array of length `n`:
a negative index counts from the end (clamped at 0), a nonnegative index is
clamped at `n`. -/
def pySliceIdx (n : ℕ) (i : ℤ) : ℕ :=
  if i < 0 then ((n : ℤ) + i).toNat else min i.toNat n

/-- `sf[start:end] = x` with numpy slice-assignment semantics (silent
clamping at the array bounds, negative indices counting from the end). -/
def setSlice (l : List ℚ) (s e : ℤ) (x : ℚ) : List ℚ :=
  l.mapIdx fun j y =>
    if pySliceIdx l.length s ≤ j ∧ j < pySliceIdx l.length e then x else y

/-- `make_stick_array` from `design_utils.py`:
`n_points = int(np.ceil(length / resolution))`; `sf = np.zeros(n_points)`;
for each `(onset, dur)` pair, `sf[int(np.floor(onset/resolution)) :
int(np.ceil((onset+dur)/resolution))] = 1.0`. -/
def make_stick_array (onsets durations : List ℚ) (length resolution : ℚ) :
    List ℚ :=
  let n_points := (⌈length / resolution⌉).toNat
  (onsets.zip durations).foldl
    (fun sf od =>
      setSlice sf ⌊od.1 / resolution⌋ ⌈(od.1 + od.2) / resolution⌉ 1)
    (List.replicate n_points 0)

/-- The claim's characterization of the 1-entries of the stick array: index
`i` is covered by some event's range
`floor(onset/resolution) .. ceil((onset+duration)/resolution) - 1`. -/
def stickCovered (onsets durations : List ℚ) (resolution : ℚ) (i : ℕ) : Prop :=
  ∃ od ∈ onsets.zip durations,
    ⌊od.1 / resolution⌋ ≤ (i : ℤ) ∧ (i : ℤ) ≤ ⌈(od.1 + od.2) / resolution⌉ - 1

instance (onsets durations : List ℚ) (resolution : ℚ) (i : ℕ) :
    Decidable (stickCovered onsets durations resolution i) := by
  unfold stickCovered
  infer_instance

/- ### Convolution: FFT-based vs direct -/

/-- Zero-padded indexing into a signal, `x[i]` for `i < len` and `0` past
the end. -/
def padAt (x : List ℚ) (i : ℕ) : ℚ := x.getD i 0

/-- The convolution `scipy.signal.fftconvolve(x, y)` (mode `full`):
via the convolution theorem, the FFT route computes the circular
convolution of the two signals zero-padded to the full output length
`N = len(x) + len(y) - 1`. -/
def fftconvolve (x y : List ℚ) : List ℚ :=
  let N := x.length + y.length - 1
  (List.range N).map fun k =>
    ∑ i ∈ Finset.range N, ∑ j ∈ Finset.range N,
      if (i + j) % N = k then padAt x i * padAt y j else 0

/-- Modelled from the spec: the direct (naive) linear convolution reference,
`out[k] = Σ_i x[i] * y[k - i]`, with the same `full` output length. -/
def directConv (x y : List ℚ) : List ℚ :=
  let N := x.length + y.length - 1
  (List.range N).map fun k =>
    ∑ i ∈ Finset.range (k + 1), padAt x i * padAt y (k - i)

/-- `l[::n]` for stride `n ≥ 1`: every `n`-th element starting at index 0. -/
def everyNth (n : ℕ) (l : List ℚ) : List ℚ :=
  (List.range ((l.length + n - 1) / n)).map fun i => l.getD (i * n) 0

/- ### `design_utils.create_cosine_drift` and `create_design_matrix` -/

/-- One row of the long-format events table
(columns `onset`, `duration`, `trial_type`). -/
structure EventRow where
  onset : ℚ
  duration : ℚ
  trial_type : String
deriving DecidableEq

/-- `pandas.unique`: deduplicate keeping the order of first occurrence. -/
def uniqueFirst : List String → List String
  | [] => []
  | x :: xs => x :: uniqueFirst (xs.filter (· ≠ x))
termination_by l => l.length
decreasing_by
  simp only [List.length_cons]
  exact Nat.lt_succ_of_le (List.length_filter_le _ _)

/-- `int(np.floor(2 * (t[-1] - t[0]) * cutoff_hz))` — the number of cosine
basis functions.  (`t[-1]`/`t[0]` are only meaningful for nonempty
`timepoints`, which the theorems assume.) -/
def nCosines (cutoff_hz : ℚ) (timepoints : List ℚ) : ℤ :=
  ⌊2 * (timepoints.getLast?.getD 0 - timepoints.head?.getD 0) * cutoff_hz⌋

/-- `create_cosine_drift` from `design_utils.py`, as a list of columns.
`cosF` and `piV` are the (abstract) library cosine and `np.pi`.  Returns no
columns when `n_cos < 1`; otherwise column `k-1` (for `k = 1..n_cos`) has
entries `cos(pi * (2*t_j + 1) * k / (2*n))`. -/
def create_cosine_drift (cosF : ℚ → ℚ) (piV : ℚ) (cutoff_hz : ℚ)
    (timepoints : List ℚ) : List (List ℚ) :=
  let n := timepoints.length
  let n_cos := nCosines cutoff_hz timepoints
  if n_cos < 1 then []
  else
    (List.range n_cos.toNat).map fun (km1 : ℕ) =>
      timepoints.map fun tj =>
        cosF (piV * (2 * tj + 1) * ((km1 : ℚ) + 1) / (2 * n))

/-- Number of distinct values in a column (`pandas.Series.nunique`). -/
def nunique (col : List ℚ) : ℕ := col.dedup.length

/-- `dct_df.loc[:, dct_df.nunique() > 1]`: keep only the columns holding
more than one distinct value. -/
def dropConstantCols (cols : List (String × List ℚ)) : List (String × List ℚ) :=
  cols.filter fun c => 1 < nunique c.2

/-- `np.linspace(a, b, num, endpoint=False)`. -/
def linspaceNoEndpoint (a b : ℚ) (num : ℕ) : List ℚ :=
  (List.range num).map fun i => a + (b - a) * i / num

/-- One trial-type regressor of `create_design_matrix`: binary stick
function, FFT convolution with the HRF truncated to the stick-function
length, downsampled by taking every `oversampling`-th sample. -/
def convColumn (hrf : List ℚ) (oversampling : ℕ) (maxtime conv_resolution : ℚ)
    (events : List EventRow) (tt : String) : List ℚ :=
  let trialEvents := events.filter (fun e => e.trial_type = tt)
  let sf := make_stick_array (trialEvents.map (·.onset))
    (trialEvents.map (·.duration)) maxtime conv_resolution
  everyNth oversampling ((fftconvolve sf hrf).take sf.length)

/-- Modelled from the spec: the same regressor with the direct-convolution
reference in place of the FFT-based convolution. -/
def convColumnDirect (hrf : List ℚ) (oversampling : ℕ)
    (maxtime conv_resolution : ℚ) (events : List EventRow) (tt : String) :
    List ℚ :=
  let trialEvents := events.filter (fun e => e.trial_type = tt)
  let sf := make_stick_array (trialEvents.map (·.onset))
    (trialEvents.map (·.duration)) maxtime conv_resolution
  everyNth oversampling ((directConv sf hrf).take sf.length)

/-- The labelled cosine-drift columns `cosine0, cosine1, …` built from
`create_cosine_drift`. -/
def cosineLabeled (cosF : ℚ → ℚ) (piV : ℚ) (cutoff_hz : ℚ)
    (timepoints : List ℚ) : List (String × List ℚ) :=
  (create_cosine_drift cosF piV cutoff_hz timepoints).enum.map
    fun ic => ("cosine" ++ toString ic.1, ic.2)

/-- `create_design_matrix` from `design_utils.py` (with the pipeline's
`add_deriv=False`), as an ordered list of labelled columns: one regressor
per trial type in first-occurrence order, then the `constant` column of
ones, then — when `hp_filter_cutoff` is nonzero — the non-constant cosine
drift columns. -/
def create_design_matrix (cosF : ℚ → ℚ) (piV : ℚ) (hrf : List ℚ)
    (events : List EventRow) (hp_filter_cutoff : ℚ) (oversampling : ℕ)
    (tr : ℚ) (num_trs : ℕ) : List (String × List ℚ) :=
  let maxtime := tr * num_trs
  let conv_resolution := tr / oversampling
  let timepoints_data := linspaceNoEndpoint 0 maxtime num_trs
  let trial_types := uniqueFirst (events.map (·.trial_type))
  let convCols := trial_types.map fun tt =>
    (tt, convColumn hrf oversampling maxtime conv_resolution events tt)
  let base := convCols ++ [("constant", List.replicate num_trs (1 : ℚ))]
  if hp_filter_cutoff ≠ 0 then
    base ++ dropConstantCols (cosineLabeled cosF piV hp_filter_cutoff timepoints_data)
  else base

/- ### `fmri_model.save_beta_series` -/

/-- Does `pat` occur at the start of `s`? -/
def startsWithChars : List Char → List Char → Bool
  | [], _ => true
  | _ :: _, [] => false
  | p :: ps, c :: cs => p = c && startsWithChars ps cs

/-- Does `pat` occur anywhere in `s` (contiguously)? -/
def occursIn (pat : List Char) : List Char → Bool
  | [] => pat.isEmpty
  | c :: cs => startsWithChars pat (c :: cs) || occursIn pat cs

/-- Substring containment, `pandas.Series.str.contains` with a literal
alternative pattern reduced to one branch. -/
def strContains (s pat : String) : Bool := occursIn pat.data s.data

/-- The `save_beta_series` keep-mask predicate: the pandas
str.contains test against the regex `(?:smaller|larger|false)`
over the design-matrix column labels. -/
def keepLabel (lbl : String) : Bool :=
  strContains lbl "smaller" || strContains lbl "larger" || strContains lbl "false"

/-- The re.sub of `save_beta_series` with pattern `_\d+$` and empty
replacement: remove a trailing underscore-plus-digits suffix, if
present. -/
def stripTrialNum (lbl : String) : String :=
  let rev := lbl.data.reverse
  let ds := rev.takeWhile (·.isDigit)
  match ds, rev.drop ds.length with
  | _ :: _, '_' :: rest => ⟨rest.reverse⟩
  | _, _ => lbl

/-- The on-disk effect of `save_beta_series`: the kept beta rows, the 4-D
image written through the masker's inverse transform (`invTransform` is the
abstract `NiftiMasker.inverse_transform`), and the one-column CSV of
simplified labels. -/
structure SaveBetaResult (ν : Type) where
  betas_kept : List (List ℚ)
  beta_image : ν
  csv_labels : List String

/-- `save_beta_series` from `fmri_model.py`: build the keep mask over the
design-matrix column labels, filter the beta rows by the mask, write the
kept rows via `inverse_transform`, and write the kept labels with trailing
`_<number>` suffixes removed. -/
def save_beta_series {ν : Type} (invTransform : List (List ℚ) → ν)
    (betas : List (List ℚ)) (desmatCols : List String) : SaveBetaResult ν :=
  let keep_mask := desmatCols.map keepLabel
  let kept_labels := desmatCols.filter keepLabel
  let simplified_labels := kept_labels.map stripTrialNum
  let betas_kept := ((betas.zip keep_mask).filter (·.2)).map (·.1)
  { betas_kept := betas_kept
    beta_image := invTransform betas_kept
    csv_labels := simplified_labels }

/- ### `io_utils.resolve_file` -/

/-- The configuration attributes read by `resolve_file` (the spec treats
the configuration object as supplied by an external collaborator). -/
structure Cfg where
  fmriprep_dir : String
  bids_dir : String
  bold_file_glob : String
  bold_mask_file_glob : String
  behav_file_glob : String

/-- The glob pattern derived by `resolve_file` for each valid `kind`;
`none` for an invalid kind. -/
def patternFor (cfg : Cfg) (subject_id kind : String) : Option String :=
  if kind = "bold" then
    some (cfg.fmriprep_dir ++ "/sub-" ++ subject_id ++ "/" ++ cfg.bold_file_glob)
  else if kind = "mask" then
    some (cfg.fmriprep_dir ++ "/sub-" ++ subject_id ++ "/" ++ cfg.bold_mask_file_glob)
  else if kind = "behav" then
    some (cfg.bids_dir ++ "/sub-" ++ subject_id ++ "/" ++ cfg.behav_file_glob)
  else none

/-- `resolve_file` from `io_utils.py`; `glob` is the abstract
`glob.glob` of the filesystem.  Raises (`Except.error`) on an invalid
kind, on zero matches and on multiple matches; otherwise returns the
unique match. -/
def resolve_file (glob : String → List String) (cfg : Cfg)
    (subject_id kind : String) : Except String String :=
  match patternFor cfg subject_id kind with
  | none => .error ("Unknown file kind: " ++ kind)
  | some pattern =>
    match glob pattern with
    | [] => .error ("No files found for " ++ kind)
    | [p] => .ok p
    | _ :: _ :: _ => .error ("Multiple files found for " ++ kind)

/- ### `design_utils.create_design_matrices` -/

/-- One row of the behavioral TSV as used by the pipeline
(columns `onset`, `duration`, `choice`). -/
structure BehavRow where
  onset : ℚ
  duration : ℚ
  choice : String

/-- One raw row of `suggested_exclusions.csv`: the `Unnamed: 0` label and
the remaining (criterion name, value) columns. -/
structure ExclRawRow where
  subject_task : String
  criteria : List (String × ℚ)

/-- One processed exclusion row after `get_exclusion_data`. -/
structure ExclRow where
  subject : String
  task : String
  criteria : List (String × ℚ)

/-- The pandas str.split on underscore with `n=1`: the part before the
first underscore and, when an underscore exists, the remainder. -/
def splitFirstUnd (s : String) : String × Option String :=
  let pre := s.data.takeWhile (· ≠ '_')
  if pre.length = s.data.length then (s, none)
  else (⟨pre⟩, some ⟨s.data.drop (pre.length + 1)⟩)

/-- `get_exclusion_data` from `design_utils.py`: split `subject_task` on
the first underscore and keep the rows whose task is `discountFix` (rows
without an underscore get a null task and are dropped by the query). -/
def get_exclusion_data (raw : List ExclRawRow) : List ExclRow :=
  raw.filterMap fun r =>
    match splitFirstUnd r.subject_task with
    | (subj, some task) =>
      if task = "discountFix" then some ⟨subj, task, r.criteria⟩ else none
    | (_, none) => none

/-- The per-subject check against `suggested_exclusions.csv`: the code
looks at the *first* matching row only (`sub_excl_row.iloc[0]`) and skips
the subject when any criterion value there is nonzero. -/
def exclCriteriaMet (excl : List ExclRow) (subid : String) : Bool :=
  match (excl.filter fun r => r.subject = subid).head? with
  | some row => row.criteria.any fun c => c.2 ≠ 0
  | none => false

/-- The claim's wording of the exclusion condition: the subject meets no
nonzero criterion in any of its discountFix rows. -/
def specExclClean (excl : List ExclRow) (subid : String) : Prop :=
  ∀ r ∈ excl, r.subject = subid → ∀ c ∈ r.criteria, c.2 = 0

/-- Both choice types present:
the counts of `smaller_sooner` and of `larger_later` choices are
both nonzero. -/
def hasBothChoices (rows : List BehavRow) : Bool :=
  rows.countP (fun r => r.choice = "smaller_sooner") ≠ 0 &&
  rows.countP (fun r => r.choice = "larger_later") ≠ 0

/-- The events table built inside `create_design_matrices`: keep the
original `trial_index`, drop trials with negative onset
(`reset_index(drop=True)`), then set `trial_type` to the choice column of
`events_data_loop` located at `events.index`, joined by an underscore to
`trial_index + 1` — where `events.index` is the *new* positional index
after the reset.  A pair `q = (newIdx, (origIdx, row))` therefore pairs
the choice at `newIdx` with the label number `origIdx + 1`. -/
def mkEvents (rows : List BehavRow) : List EventRow :=
  let filtered := rows.enum.filter fun p => 0 ≤ p.2.onset
  filtered.enum.map fun q =>
    ⟨q.2.2.onset, q.2.2.duration,
      (rows.getD q.1 ⟨0, 0, ""⟩).choice ++ "_" ++ toString (q.2.1 + 1)⟩

/-- The claim's intended events table: each surviving trial keeps *its
own* choice value, joined to its 1-based original position. -/
def specEvents (rows : List BehavRow) : List EventRow :=
  (rows.enum.filter fun p => 0 ≤ p.2.onset).map fun p =>
    ⟨p.2.onset, p.2.duration, p.2.choice ++ "_" ++ toString (p.1 + 1)⟩

/-- The check that the max of the onset column exceeds
`scan_duration`: some remaining onset exceeds the scan duration (the pandas max of an empty column is NaN, which never
triggers the skip — matching `List.any` on the empty list). -/
def onsetExceeds (events : List EventRow) (scanDur : ℚ) : Bool :=
  events.any fun e => scanDur < e.onset

/-- Status record appended for every subject
(`sub_id`, `include`, `reason`). -/
structure StatusRec where
  sub_id : String
  include_flag : Bool
  reason : String
deriving DecidableEq

/-- The abstract I/O environment of `create_design_matrices`: behavioral
resolution/loading, the raw exclusions CSV, BOLD resolution, header
reading, and the (fallible, `try/except`-wrapped) design-matrix
construction for given events and `n_scans`.  `δ` is the design-matrix
payload type. -/
structure PipeEnv (δ : Type) where
  behav : String → Option (List BehavRow)
  exclRaw : List ExclRawRow
  bold : String → Option String
  nScans : String → Option ℕ
  design : List EventRow → ℕ → Option δ

/-- One iteration of the subject loop in `create_design_matrices`: the
checks in source order, producing the optional (bold path, design matrix)
success payload and the status record. -/
def processSubject {δ : Type} (env : PipeEnv δ) (tr : ℚ) (excl : List ExclRow)
    (subid : String) : Option (String × δ) × StatusRec :=
  match env.behav subid with
  | none => (none, ⟨subid, false, "behav missing"⟩)
  | some rows =>
    if exclCriteriaMet excl subid then
      (none, ⟨subid, false, "met suggested_exclusion.csv criteria"⟩)
    else if !hasBothChoices rows then
      (none, ⟨subid, false, "singular response"⟩)
    else
      match env.bold subid with
      | none => (none, ⟨subid, false, "BOLD missing"⟩)
      | some bold_file =>
        match env.nScans bold_file with
        | none => (none, ⟨subid, false, "cannot read BOLD header"⟩)
        | some n_scans =>
          let events := mkEvents rows
          if onsetExceeds events ((n_scans : ℚ) * tr) then
            (none, ⟨subid, false, "onset beyond scan duration"⟩)
          else
            match env.design events n_scans with
            | none => (none, ⟨subid, false, "design matrix error"⟩)
            | some dm =>
              (some (bold_file, dm), ⟨subid, true, "Passed all checks"⟩)

/-- `create_design_matrices` from `design_utils.py`: fold the subject loop
over the input list, accumulating `valid_subids`, `bold_paths`,
`design_matrices` and the per-subject status records. -/
def create_design_matrices {δ : Type} (env : PipeEnv δ) (tr : ℚ)
    (subids : List String) :
    List String × List String × List δ × List StatusRec :=
  let excl := get_exclusion_data env.exclRaw
  let results := subids.map fun s => (s, processSubject env tr excl s)
  (results.filterMap fun r => if r.2.1.isSome then some r.1 else none,
   results.filterMap fun r => r.2.1.map (·.1),
   results.filterMap fun r => r.2.1.map (·.2),
   results.map fun r => r.2.2)

/-- The conjunction of the per-subject inclusion conditions, in the
claim's phrasing (with the exclusion-CSV condition as the code implements
it: first matching row only). -/
def codePasses {δ : Type} (env : PipeEnv δ) (tr : ℚ) (subid : String) : Prop :=
  ∃ rows, env.behav subid = some rows ∧
    exclCriteriaMet (get_exclusion_data env.exclRaw) subid = false ∧
    hasBothChoices rows = true ∧
    ∃ bf, env.bold subid = some bf ∧
      ∃ n, env.nScans bf = some n ∧
        onsetExceeds (mkEvents rows) ((n : ℚ) * tr) = false ∧
        (env.design (mkEvents rows) n).isSome = true

/- ### `run_lsa.main` -/

/-- The five pipeline steps the spec describes for `run_lsa.main`. -/
inductive PipelineStep where
  | loadConfig
  | buildDesignMatrices
  | loadScaleBold
  | computeBetasStep
  | saveOutputs
deriving DecidableEq

/-- A component of the tuple returned by `create_design_matrices`, for
modelling Python tuple unpacking. -/
inductive PyVal (δ : Type) where
  | strs : List String → PyVal δ
  | designs : List δ → PyVal δ
  | statuses : List StatusRec → PyVal δ

/-- The value returned by `create_design_matrices`, as the 4-component
Python tuple `(valid_subids, bold_paths, design_matrices, status_df)`. -/
def createDesignMatricesTuple {δ : Type} (env : PipeEnv δ) (tr : ℚ)
    (subids : List String) : List (PyVal δ) :=
  let r := create_design_matrices env tr subids
  [.strs r.1, .strs r.2.1, .designs r.2.2.1, .statuses r.2.2.2]

/-- Python tuple unpacking `x₁, …, xₙ = t`: succeeds exactly when the
tuple has `n` components, otherwise raises `ValueError`. -/
def pyUnpack {δ : Type} (n : ℕ) (t : List (PyVal δ)) :
    Except String (List (PyVal δ)) :=
  if t.length = n then .ok t
  else if n < t.length then .error "too many values to unpack"
  else .error "not enough values to unpack"

/-- `run_lsa.main`: the executed pipeline steps and the outcome.  The
configuration load is out-of-scope glue (the spec treats the configuration
as supplied, validated, by an external collaborator), with `tr` standing
for the configured repetition time.  The line
`_, bold_paths, design_matrices = create_design_matrices(...)` unpacks the
4-tuple into three names; only on success would the model continue with
the load/scale, beta-estimation and save steps. -/
def run_lsa_main {δ : Type} (env : PipeEnv δ) (tr : ℚ) (subid : String) :
    List PipelineStep × Except String Unit :=
  let steps := [PipelineStep.loadConfig, PipelineStep.buildDesignMatrices]
  match pyUnpack 3 (createDesignMatricesTuple env tr [subid]) with
  | .error e => (steps, .error e)
  | .ok _ =>
    (steps ++ [PipelineStep.loadScaleBold, PipelineStep.computeBetasStep,
      PipelineStep.saveOutputs], .ok ())

/- ### Concrete inputs used by witnesses -/

/-- Counterexample exclusions table: two discountFix rows for subject
`s1`, the first clean, the second with a nonzero criterion. -/
def exclRawCE : List ExclRawRow :=
  [⟨"s1_discountFix", [("crit", 0)]⟩, ⟨"s1_discountFix", [("crit", 1)]⟩]

/-- Counterexample environment in which subject `s1` passes every other
check. -/
def envCE : PipeEnv Unit :=
  { behav := fun _ => some [⟨0, 1, "smaller_sooner"⟩, ⟨1, 1, "larger_later"⟩]
    exclRaw := exclRawCE
    bold := fun _ => some "bold.nii.gz"
    nScans := fun _ => some 10
    design := fun _ _ => some () }

/-- A concrete 2×1 design matrix (a column of ones). -/
def Xols : Matrix (Fin 2) (Fin 1) ℚ := !![1; 1]

/-- A concrete 2×1 data array (one voxel, two timepoints). -/
def Yols : Matrix (Fin 2) (Fin 1) ℚ := !![2; 4]

/-- A concrete 1×2 data array (one timepoint, two voxels). -/
def Dgm : Matrix (Fin 1) (Fin 2) ℚ := !![1, 3]

lemma matInv_eq_inv {p : ℕ} (M : Matrix (Fin p) (Fin p) ℚ) : matInv M = M⁻¹ := by
  rw [matInv, Matrix.inv_def, Ring.inverse_eq_inv]

/-- Normal equations: the residual of the OLS solution for one data column
is orthogonal to the column space of `X`. -/
lemma normal_equations {t p : ℕ} (X : Matrix (Fin t) (Fin p) ℚ) (y : Fin t → ℚ)
    (h : IsUnit (Xᵀ * X).det) :
    Xᵀ.mulVec (y - X.mulVec ((Xᵀ * X)⁻¹.mulVec (Xᵀ.mulVec y))) = 0 := by
  rw [Matrix.mulVec_sub]
  have h1 : Xᵀ *ᵥ (X *ᵥ ((Xᵀ * X)⁻¹ *ᵥ (Xᵀ *ᵥ y))) = Xᵀ *ᵥ y := by
    simp only [Matrix.mulVec_mulVec, ← Matrix.mul_assoc]
    rw [Matrix.mul_nonsing_inv _ h, Matrix.one_mul]
  rw [h1, sub_self]

/-- The OLS solution minimizes the residual sum of squares for one column. -/
lemma residSS_le {t p : ℕ} (X : Matrix (Fin t) (Fin p) ℚ) (y : Fin t → ℚ)
    (h : IsUnit (Xᵀ * X).det) (b : Fin p → ℚ) :
    residSS X y ((Xᵀ * X)⁻¹.mulVec (Xᵀ.mulVec y)) ≤ residSS X y b := by
  set bh := (Xᵀ * X)⁻¹.mulVec (Xᵀ.mulVec y) with hbh
  set r := y - X.mulVec bh with hr
  set d := bh - b with hd
  have hdec : ∀ i, y i - X.mulVec b i = r i + X.mulVec d i := by
    intro i
    simp only [hr, hd, Matrix.mulVec_sub, Pi.sub_apply]
    ring
  have hcross : r ⬝ᵥ (X *ᵥ d) = 0 := by
    rw [Matrix.dotProduct_mulVec]
    have hz : r ᵥ* X = 0 := by
      rw [← Matrix.mulVec_transpose]
      exact normal_equations X y h
    rw [hz, Matrix.zero_dotProduct]
  have hexp : residSS X y b
      = residSS X y bh + (2 * (r ⬝ᵥ (X *ᵥ d)) + ∑ i, (X.mulVec d i) ^ 2) := by
    unfold residSS
    calc ∑ i, (y i - X.mulVec b i) ^ 2
        = ∑ i, ((y i - X.mulVec bh i) ^ 2
            + (2 * (r i * X.mulVec d i) + (X.mulVec d i) ^ 2)) := by
          refine Finset.sum_congr rfl fun i _ => ?_
          rw [hdec i]
          have hri : r i = y i - X.mulVec bh i := rfl
          rw [← hri]
          ring
      _ = ∑ i, (y i - X.mulVec bh i) ^ 2
            + (2 * ∑ i, r i * X.mulVec d i + ∑ i, (X.mulVec d i) ^ 2) := by
          rw [Finset.sum_add_distrib, Finset.sum_add_distrib, Finset.mul_sum]
      _ = _ := rfl
  rw [hexp, hcross]
  have hnn : (0 : ℚ) ≤ ∑ i, (X.mulVec d i) ^ 2 :=
    Finset.sum_nonneg fun i _ => sq_nonneg _
  linarith

/-- **C1** `compute_betas(X, Y)` returns exactly `(XᵀX)⁻¹ Xᵀ Y`, the
ordinary-least-squares estimate of shape (nbetas, nvox); each returned
column minimizes the squared residual ‖Y_col − X b‖² over all b. -/
theorem compute_betas_ols {t p v : ℕ} (X : Matrix (Fin t) (Fin p) ℚ)
    (Y : Matrix (Fin t) (Fin v) ℚ) (h : IsUnit (Xᵀ * X).det) :
    compute_betas X Y = (Xᵀ * X)⁻¹ * Xᵀ * Y ∧
    ∀ (j : Fin v) (b : Fin p → ℚ),
      residSS X (fun i => Y i j) (fun k => compute_betas X Y k j)
        ≤ residSS X (fun i => Y i j) b := by
  have hform : compute_betas X Y = (Xᵀ * X)⁻¹ * Xᵀ * Y := by
    rw [compute_betas, matInv_eq_inv]
  refine ⟨hform, fun j b => ?_⟩
  have hcol : (fun k => compute_betas X Y k j)
      = (Xᵀ * X)⁻¹.mulVec (Xᵀ.mulVec (fun i => Y i j)) := by
    funext k
    rw [hform, Matrix.mulVec_mulVec]
    simp [Matrix.mul_apply, Matrix.mulVec, Matrix.dotProduct]
  rw [hcol]
  exact residSS_le X _ h b

/-- Witness for C1 at the concrete 2×1 design `[[1],[1]]` and data `[[2],[4]]`. -/
theorem compute_betas_ols_witness :
    IsUnit ((Xolsᵀ * Xols).det) ∧
    compute_betas Xols Yols = (Xolsᵀ * Xols)⁻¹ * Xolsᵀ * Yols := by
  have h2 : Xolsᵀ * Xols = !![2] := by
    ext i j
    fin_cases i
    fin_cases j
    simp [Xols, Matrix.mul_apply, Fin.sum_univ_two, Matrix.vecHead, Matrix.vecTail,
      Matrix.transpose_apply]
    norm_num
  have h : IsUnit ((Xolsᵀ * Xols).det) := by
    rw [h2, isUnit_iff_ne_zero]
    norm_num [Matrix.det_fin_one]
  exact ⟨h, (compute_betas_ols _ _ h).1⟩

/-- **C3** For brain-masked data with nonzero grand mean m,
`calculate_grand_mean_scale` returns `scale_factor = 100/m`, scaled data
equal to the raw data times `100/m` elementwise, and the grand mean of the
scaled data is exactly 100. -/
theorem grand_mean_scale_spec {t v : ℕ} (D : Matrix (Fin t) (Fin v) ℚ)
    (h : grandMean D ≠ 0) :
    (calculate_grand_mean_scale D).1 = 100 / grandMean D ∧
    (∀ i j, (calculate_grand_mean_scale D).2 i j = D i j * (100 / grandMean D)) ∧
    grandMean (calculate_grand_mean_scale D).2 = 100 := by
  refine ⟨rfl, fun i j => rfl, ?_⟩
  have htv : ((t : ℚ) * v) ≠ 0 := by
    intro h0
    exact h (by rw [grandMean, h0, div_zero])
  have hS : (∑ i, ∑ j, D i j) ≠ 0 := by
    intro h0
    exact h (by rw [grandMean, h0, zero_div])
  show grandMean (Matrix.of fun i j => D i j * (100 / grandMean D)) = 100
  rw [grandMean]
  simp only [Matrix.of_apply, ← Finset.sum_mul]
  rw [grandMean]
  field_simp

/-- Witness for C3 at the concrete 1×2 data array `[[1, 3]]`. -/
theorem grand_mean_scale_spec_witness :
    grandMean Dgm ≠ 0 ∧
    grandMean (calculate_grand_mean_scale Dgm).2 = 100 := by
  have h : grandMean Dgm ≠ 0 := by
    norm_num [Dgm, grandMean, Fin.sum_univ_two]
  exact ⟨h, (grand_mean_scale_spec _ h).2.2⟩

/-- The FFT-based (circular, zero-padded) convolution agrees with the
direct linear convolution at the full output length. -/
lemma fftconvolve_eq_directConv (x y : List ℚ) :
    fftconvolve x y = directConv x y := by
  unfold fftconvolve directConv
  apply List.map_congr_left
  intro k hk
  rw [List.mem_range] at hk
  have step1 : ∀ i ∈ Finset.range (x.length + y.length - 1),
      ∀ j ∈ Finset.range (x.length + y.length - 1),
      (if (i + j) % (x.length + y.length - 1) = k then padAt x i * padAt y j else 0)
        = (if i + j = k then padAt x i * padAt y j else 0) := by
    intro i _ j _
    by_cases hxy : i < x.length ∧ j < y.length
    · have hlt : i + j < x.length + y.length - 1 ∨ i + j = k → True := fun _ => trivial
      have hmod : (i + j) % (x.length + y.length - 1) = i + j :=
        Nat.mod_eq_of_lt (by omega)
      rw [hmod]
    · have hz : padAt x i * padAt y j = 0 := by
        rcases not_and_or.1 hxy with hi | hj
        · have : padAt x i = 0 := List.getD_eq_default _ _ (by omega)
          rw [this, zero_mul]
        · have : padAt y j = 0 := List.getD_eq_default _ _ (by omega)
          rw [this, mul_zero]
      rw [hz, ite_self, ite_self]
  rw [Finset.sum_congr rfl fun i hi => Finset.sum_congr rfl fun j hj => step1 i hi j hj]
  have inner : ∀ i ∈ Finset.range (x.length + y.length - 1),
      (∑ j ∈ Finset.range (x.length + y.length - 1),
        if i + j = k then padAt x i * padAt y j else 0)
        = if i ≤ k then padAt x i * padAt y (k - i) else 0 := by
    intro i _
    by_cases hik : i ≤ k
    · rw [Finset.sum_eq_single (k - i)]
      · rw [if_pos (by omega), if_pos hik]
      · intro b _ hb
        rw [if_neg (by omega)]
      · intro hmem
        exact absurd (Finset.mem_range.2 (by omega)) hmem
    · rw [if_neg hik]
      apply Finset.sum_eq_zero
      intro j _
      rw [if_neg (by omega)]
  rw [Finset.sum_congr rfl inner]
  rw [← Finset.sum_subset (Finset.range_subset.2 (by omega : k + 1 ≤ x.length + y.length - 1))]
  · refine Finset.sum_congr rfl fun i hi => ?_
    rw [Finset.mem_range] at hi
    rw [if_pos (by omega)]
  · intro i hi hni
    rw [Finset.mem_range] at hi hni
    rw [if_neg (by omega)]

/-- Looking up a key drawn from the label list of a labelled-column map
returns that label's column. -/
lemma lookup_label_map (f : String → List ℚ) (tts : List String)
    (rest : List (String × List ℚ)) (tt : String) (h : tt ∈ tts) :
    ((tts.map fun s => (s, f s)) ++ rest).lookup tt = some (f tt) := by
  induction tts with
  | nil => exact absurd h (List.not_mem_nil _)
  | cons a as ih =>
    rw [List.map_cons, List.cons_append, List.lookup_cons]
    by_cases hat : tt = a
    · subst hat
      simp
    · have hbeq : (tt == a) = false := beq_false_of_ne hat
      rw [hbeq]
      exact ih (by
        rcases List.mem_cons.1 h with h1 | h1
        · exact absurd h1 hat
        · exact h1)

/-- **C5** For every trial type in the events table, the design-matrix
column produced by `create_design_matrix` — FFT-based convolution of the
stick function with the HRF, truncated and downsampled — equals the column
obtained from the direct (naive) linear convolution reference. -/
theorem design_matrix_fft_eq_direct (cosF : ℚ → ℚ) (piV : ℚ) (hrf : List ℚ)
    (events : List EventRow) (hp : ℚ) (os : ℕ) (tr : ℚ) (numTrs : ℕ)
    (tt : String) (htt : tt ∈ uniqueFirst (events.map (·.trial_type))) :
    (create_design_matrix cosF piV hrf events hp os tr numTrs).lookup tt
      = some (convColumnDirect hrf os (tr * numTrs) (tr / os) events tt) := by
  have hcol : ∀ s, convColumn hrf os (tr * numTrs) (tr / os) events s
      = convColumnDirect hrf os (tr * numTrs) (tr / os) events s := by
    intro s
    unfold convColumn convColumnDirect
    simp only [fftconvolve_eq_directConv]
  unfold create_design_matrix
  by_cases hhp : hp ≠ 0
  · rw [if_pos hhp, List.append_assoc,
      lookup_label_map (convColumn hrf os (tr * numTrs) (tr / os) events) _ _ _ htt,
      hcol]
  · rw [if_neg hhp,
      lookup_label_map (convColumn hrf os (tr * numTrs) (tr / os) events) _ _ _ htt,
      hcol]

/-- Witness for C5: a single-event table with one trial type. -/
theorem design_matrix_fft_eq_direct_witness :
    "ss_1" ∈ uniqueFirst (([⟨0, 1, "ss_1"⟩] : List EventRow).map (·.trial_type)) ∧
    (create_design_matrix id 3 [1, 1] [⟨0, 1, "ss_1"⟩] 0 2 1 4).lookup "ss_1"
      = some (convColumnDirect [1, 1] 2 ((1 : ℚ) * (4 : ℕ)) ((1 : ℚ) / (2 : ℕ))
          [⟨0, 1, "ss_1"⟩] "ss_1") := by
  have h : "ss_1" ∈ uniqueFirst (([⟨0, 1, "ss_1"⟩] : List EventRow).map (·.trial_type)) := by
    simp [uniqueFirst]
  exact ⟨h, design_matrix_fft_eq_direct id 3 [1, 1] [⟨0, 1, "ss_1"⟩] 0 2 1 4 "ss_1" h⟩

/-- **C6** For nonzero `hp_filter_cutoff`, `create_cosine_drift` returns
`n_cos = floor(2 * (t_last - t_first) * cutoff_hz)` columns of
`len(timepoints)` entries each, entry `(j, k-1)` being
`cos(pi * (2*t_j + 1) * k / (2*n))`, and no columns when `n_cos < 1`;
`create_design_matrix` appends the basis after dropping its constant
columns. -/
theorem create_cosine_drift_spec (cosF : ℚ → ℚ) (piV cutoff : ℚ) (ts : List ℚ)
    (hts : ts ≠ []) :
    (nCosines cutoff ts < 1 → create_cosine_drift cosF piV cutoff ts = []) ∧
    (create_cosine_drift cosF piV cutoff ts).length = (nCosines cutoff ts).toNat ∧
    (∀ col ∈ create_cosine_drift cosF piV cutoff ts, col.length = ts.length) ∧
    (∀ k j, k < (nCosines cutoff ts).toNat → j < ts.length →
      ((create_cosine_drift cosF piV cutoff ts).getD k []).getD j 0
        = cosF (piV * (2 * ts.getD j 0 + 1) * ((k : ℚ) + 1) / (2 * ts.length))) ∧
    (∀ (hrf : List ℚ) (events : List EventRow) (os : ℕ) (tr : ℚ) (numTrs : ℕ),
      cutoff ≠ 0 →
      create_design_matrix cosF piV hrf events cutoff os tr numTrs
        = ((uniqueFirst (events.map (·.trial_type))).map fun tt =>
            (tt, convColumn hrf os (tr * numTrs) (tr / os) events tt))
          ++ [("constant", List.replicate numTrs (1 : ℚ))]
          ++ dropConstantCols (cosineLabeled cosF piV cutoff
              (linspaceNoEndpoint 0 (tr * numTrs) numTrs))) ∧
    (∀ (cols : List (String × List ℚ)) (c : String × List ℚ),
      c ∈ dropConstantCols cols ↔ c ∈ cols ∧ 1 < nunique c.2) := by
  refine ⟨?_, ?_, ?_, ?_, ?_, ?_⟩
  · intro h
    show (if nCosines cutoff ts < 1 then ([] : List (List ℚ))
        else (List.range (nCosines cutoff ts).toNat).map fun (km1 : ℕ) =>
          ts.map fun tj =>
            cosF (piV * (2 * tj + 1) * ((km1 : ℚ) + 1) / (2 * ts.length))) = []
    rw [if_pos h]
  · show (if nCosines cutoff ts < 1 then ([] : List (List ℚ))
        else (List.range (nCosines cutoff ts).toNat).map fun (km1 : ℕ) =>
          ts.map fun tj =>
            cosF (piV * (2 * tj + 1) * ((km1 : ℚ) + 1) / (2 * ts.length))).length
        = (nCosines cutoff ts).toNat
    by_cases h : nCosines cutoff ts < 1
    · rw [if_pos h, List.length_nil, Int.toNat_of_nonpos (by omega)]
    · rw [if_neg h, List.length_map, List.length_range]
  · intro col hcol
    by_cases h : nCosines cutoff ts < 1
    · have : create_cosine_drift cosF piV cutoff ts = [] := by
        show (if nCosines cutoff ts < 1 then ([] : List (List ℚ)) else _) = []
        rw [if_pos h]
      rw [this] at hcol
      exact absurd hcol (List.not_mem_nil _)
    · have hrepr : create_cosine_drift cosF piV cutoff ts
          = (List.range (nCosines cutoff ts).toNat).map fun (km1 : ℕ) =>
            ts.map fun tj =>
              cosF (piV * (2 * tj + 1) * ((km1 : ℚ) + 1) / (2 * ts.length)) := by
        show (if nCosines cutoff ts < 1 then ([] : List (List ℚ)) else _) = _
        rw [if_neg h]
      rw [hrepr] at hcol
      obtain ⟨km1, _, hcol⟩ := List.mem_map.1 hcol
      rw [← hcol, List.length_map]
  · intro k j hk hj
    have h : ¬ nCosines cutoff ts < 1 := by
      intro h
      rw [Int.toNat_of_nonpos (by omega)] at hk
      omega
    have hrepr : create_cosine_drift cosF piV cutoff ts
        = (List.range (nCosines cutoff ts).toNat).map fun (km1 : ℕ) =>
          ts.map fun tj =>
            cosF (piV * (2 * tj + 1) * ((km1 : ℚ) + 1) / (2 * ts.length)) := by
      show (if nCosines cutoff ts < 1 then ([] : List (List ℚ)) else _) = _
      rw [if_neg h]
    have houter : (create_cosine_drift cosF piV cutoff ts).getD k []
        = ts.map fun tj =>
            cosF (piV * (2 * tj + 1) * ((k : ℚ) + 1) / (2 * (ts.length : ℚ))) := by
      rw [hrepr]
      have hk2 : k < ((List.range (nCosines cutoff ts).toNat).map fun (km1 : ℕ) =>
          ts.map fun tj =>
            cosF (piV * (2 * tj + 1) * ((km1 : ℚ) + 1) / (2 * (ts.length : ℚ)))).length := by
        rw [List.length_map, List.length_range]
        exact hk
      rw [List.getD_eq_getElem _ _ hk2]
      simp
    rw [houter,
      List.getD_eq_getElem _ _ (by rw [List.length_map]; exact hj),
      List.getElem_map, List.getD_eq_getElem _ _ hj]
  · intro hrf events os tr numTrs hcut
    show (if cutoff ≠ 0 then _ else _) = _
    rw [if_pos hcut, List.append_assoc]
  · intro cols c
    simp [dropConstantCols, List.mem_filter]

/-- Witness for C6 at the concrete timepoints `[0, 1]` with cutoff `1`. -/
theorem create_cosine_drift_spec_witness :
    ([(0 : ℚ), 1] : List ℚ) ≠ [] ∧
    (create_cosine_drift id 3 1 [(0 : ℚ), 1]).length
      = (nCosines 1 [(0 : ℚ), 1]).toNat := by
  have h : ([(0 : ℚ), 1] : List ℚ) ≠ [] := by simp
  exact ⟨h, (create_cosine_drift_spec id 3 1 [(0 : ℚ), 1] h).2.1⟩

lemma length_setSlice (l : List ℚ) (s e : ℤ) (x : ℚ) :
    (setSlice l s e x).length = l.length := by
  unfold setSlice
  exact List.length_mapIdx

lemma getD_setSlice (l : List ℚ) (s e : ℤ) (x : ℚ) (j : ℕ) (hj : j < l.length) :
    (setSlice l s e x).getD j 0
      = if pySliceIdx l.length s ≤ j ∧ j < pySliceIdx l.length e then x
        else l.getD j 0 := by
  unfold setSlice
  rw [List.getD_eq_getElem _ _ (by rw [List.length_mapIdx]; exact hj),
    List.getElem_mapIdx, List.getD_eq_getElem _ _ hj]

lemma stickFold_length (res : ℚ) (evs : List (ℚ × ℚ)) (sf : List ℚ) :
    (evs.foldl (fun sf od => setSlice sf ⌊od.1 / res⌋ ⌈(od.1 + od.2) / res⌉ 1)
      sf).length = sf.length := by
  induction evs generalizing sf with
  | nil => rfl
  | cons od evs ih => rw [List.foldl_cons, ih, length_setSlice]

lemma stickFold_getD (res : ℚ) (hres : 0 < res) (evs : List (ℚ × ℚ))
    (hnn : ∀ p ∈ evs, 0 ≤ p.1 ∧ 0 ≤ p.2) (sf : List ℚ) (j : ℕ)
    (hj : j < sf.length) :
    (evs.foldl (fun sf od => setSlice sf ⌊od.1 / res⌋ ⌈(od.1 + od.2) / res⌉ 1)
      sf).getD j 0
      = if ∃ od ∈ evs, ⌊od.1 / res⌋ ≤ (j : ℤ) ∧ (j : ℤ) < ⌈(od.1 + od.2) / res⌉
        then 1 else sf.getD j 0 := by
  induction evs generalizing sf with
  | nil => simp
  | cons od evs ih =>
    rw [List.foldl_cons,
      ih (fun p hp => hnn p (List.mem_cons_of_mem _ hp)) _
        (by rw [length_setSlice]; exact hj),
      getD_setSlice _ _ _ _ _ hj]
    have hod := hnn od (List.mem_cons_self _ _)
    have hfl : 0 ≤ ⌊od.1 / res⌋ := Int.floor_nonneg.2 (div_nonneg hod.1 hres.le)
    have hce : 0 ≤ ⌈(od.1 + od.2) / res⌉ :=
      Int.ceil_nonneg (div_nonneg (by linarith [hod.1, hod.2]) hres.le)
    have hcond : (pySliceIdx sf.length ⌊od.1 / res⌋ ≤ j
          ∧ j < pySliceIdx sf.length ⌈(od.1 + od.2) / res⌉)
        ↔ (⌊od.1 / res⌋ ≤ (j : ℤ) ∧ (j : ℤ) < ⌈(od.1 + od.2) / res⌉) := by
      unfold pySliceIdx
      rw [if_neg (by omega), if_neg (by omega)]
      constructor
      · rintro ⟨h1, h2⟩
        refine ⟨?_, ?_⟩
        · rcases min_le_iff.1 h1 with h | h
          · exact Int.toNat_le.1 h
          · omega
        · exact Int.lt_toNat.1 (lt_of_lt_of_le h2 (min_le_left _ _))
      · rintro ⟨h1, h2⟩
        exact ⟨le_trans (min_le_left _ _) (Int.toNat_le.2 h1),
          lt_min (Int.lt_toNat.2 h2) hj⟩
    by_cases hE : ∃ p ∈ evs, ⌊p.1 / res⌋ ≤ (j : ℤ) ∧ (j : ℤ) < ⌈(p.1 + p.2) / res⌉
    · obtain ⟨p, hp, hcov⟩ := hE
      rw [if_pos ⟨p, hp, hcov⟩, if_pos ⟨p, List.mem_cons_of_mem _ hp, hcov⟩]
    · rw [if_neg hE]
      by_cases hS : ⌊od.1 / res⌋ ≤ (j : ℤ) ∧ (j : ℤ) < ⌈(od.1 + od.2) / res⌉
      · rw [if_pos (hcond.2 hS), if_pos ⟨od, List.mem_cons_self _ _, hS⟩]
      · rw [if_neg (fun h => hS (hcond.1 h)), if_neg]
        rintro ⟨p, hp, hcov⟩
        rcases List.mem_cons.1 hp with rfl | hp
        · exact hS hcov
        · exact hE ⟨p, hp, hcov⟩

/-- **C9 (amended: durations also nonnegative)** `make_stick_array` totally
returns `ceil(length/resolution)` entries, `1` exactly at the indices
covered by some event's range
`floor(onset/res) .. ceil((onset+dur)/res) - 1` and `0` elsewhere; ranges
reaching past the end of the array are silently clipped. -/
theorem make_stick_array_spec (onsets durations : List ℚ) (len res : ℚ)
    (hlen : onsets.length = durations.length)
    (hon : ∀ o ∈ onsets, 0 ≤ o) (hdur : ∀ d ∈ durations, 0 ≤ d)
    (hL : 0 < len) (hres : 0 < res) :
    (make_stick_array onsets durations len res).length = (⌈len / res⌉).toNat ∧
    ∀ j < (⌈len / res⌉).toNat,
      (make_stick_array onsets durations len res).getD j 0
        = if stickCovered onsets durations res j then 1 else 0 := by
  have hnn : ∀ p ∈ onsets.zip durations, 0 ≤ p.1 ∧ 0 ≤ p.2 := by
    rintro ⟨a, b⟩ hp
    have := List.of_mem_zip hp
    exact ⟨hon a this.1, hdur b this.2⟩
  constructor
  · show (List.foldl _ (List.replicate (⌈len / res⌉).toNat 0) _).length = _
    rw [stickFold_length, List.length_replicate]
  · intro j hj
    show (List.foldl _ (List.replicate (⌈len / res⌉).toNat 0) _).getD j 0 = _
    rw [stickFold_getD res hres _ hnn _ j
      (by rw [List.length_replicate]; exact hj)]
    have hcov : stickCovered onsets durations res j
        ↔ ∃ od ∈ onsets.zip durations,
            ⌊od.1 / res⌋ ≤ (j : ℤ) ∧ (j : ℤ) < ⌈(od.1 + od.2) / res⌉ := by
      unfold stickCovered
      constructor <;> rintro ⟨od, hmem, h1, h2⟩ <;> exact ⟨od, hmem, h1, by omega⟩
    have hz : (List.replicate (⌈len / res⌉).toNat (0 : ℚ)).getD j 0 = 0 := by
      rw [List.getD_eq_getElem _ _ (by rw [List.length_replicate]; exact hj),
        List.getElem_replicate]
    rw [hz]
    by_cases hc : stickCovered onsets durations res j
    · rw [if_pos (hcov.1 hc), if_pos hc]
    · rw [if_neg (fun h => hc (hcov.2 h)), if_neg hc]

/-- Witness for C9 at one event `(onset 0, duration 2)` on a 10-point grid. -/
theorem make_stick_array_spec_witness :
    (make_stick_array [0] [2] 10 1).length = (⌈(10 : ℚ) / 1⌉).toNat ∧
    (make_stick_array [0] [2] 10 1).getD 0 0
      = if stickCovered [0] [2] 1 0 then 1 else 0 := by
  have h := make_stick_array_spec [0] [2] 10 1 (by simp)
    (by intro o ho; simp at ho; simp [ho]) (by intro d hd; simp at hd; simp [hd])
    (by norm_num) (by norm_num)
  refine ⟨h.1, h.2 0 ?_⟩
  have h10 : (⌈(10 : ℚ) / 1⌉) = 10 := by norm_num
  rw [h10]
  decide

/-- Counterexample to C9 as stated: with a (permitted) negative duration,
numpy's negative slice end wraps around, so `make_stick_array [0] [-3] 10 1`
sets index 0 to `1` although no event range covers it. -/
theorem make_stick_array_counterexample :
    (make_stick_array [0] [-3] 10 1).getD 0 0 = 1 ∧
    ¬ stickCovered [0] [-3] 1 0 := by
  have h10 : (⌈(10 : ℚ) / 1⌉) = 10 := by norm_num
  have hfl : ⌊(0 : ℚ) / 1⌋ = 0 := by norm_num
  have hce : ⌈((0 : ℚ) + (-3)) / 1⌉ = -3 := by
    have h3 : ((0 : ℚ) + (-3)) / 1 = ((-3 : ℤ) : ℚ) := by norm_num
    rw [h3, Int.ceil_intCast]
  constructor
  · have e1 : make_stick_array [0] [-3] 10 1
        = setSlice (List.replicate 10 0) 0 (-3) 1 := by
      unfold make_stick_array
      have hce2 : ⌈(-3 : ℚ)⌉ = -3 := by
        rw [show ((-3 : ℚ)) = ((-3 : ℤ) : ℚ) by norm_num, Int.ceil_intCast]
      simp [h10, hfl, hce, hce2]
    rw [e1, getD_setSlice _ _ _ _ 0 (by simp),
      if_pos (by constructor <;> decide)]
  · rintro ⟨od, hmem, h1, h2⟩
    have hod : od = ((0 : ℚ), (-3 : ℚ)) := by simpa using hmem
    rw [hod] at h2
    rw [show (((0 : ℚ), (-3 : ℚ)).1 + ((0 : ℚ), (-3 : ℚ)).2) = (0 : ℚ) + (-3) from rfl,
      hce] at h2
    omega

lemma startsWithChars_subset (p s : List Char) (h : startsWithChars p s = true) :
    ∀ c ∈ p, c ∈ s := by
  induction p generalizing s with
  | nil => intro c hc; exact absurd hc (List.not_mem_nil c)
  | cons a ps ih =>
    cases s with
    | nil => simp [startsWithChars] at h
    | cons b bs =>
      simp only [startsWithChars, Bool.and_eq_true, decide_eq_true_eq] at h
      intro c hc
      rcases List.mem_cons.1 hc with rfl | hc
      · rw [h.1]; exact List.mem_cons_self _ _
      · exact List.mem_cons_of_mem _ (ih bs h.2 c hc)

lemma occursIn_subset (p s : List Char) (h : occursIn p s = true) :
    ∀ c ∈ p, c ∈ s := by
  induction s with
  | nil =>
    simp only [occursIn, List.isEmpty_iff] at h
    subst h
    intro c hc
    exact absurd hc (List.not_mem_nil c)
  | cons b bs ih =>
    simp only [occursIn, Bool.or_eq_true] at h
    intro c hc
    rcases h with h | h
    · exact startsWithChars_subset _ _ h c hc
    · exact List.mem_cons_of_mem _ (ih h c hc)

lemma occursIn_false_of_missing (p s : List Char) (c : Char) (hc : c ∈ p)
    (hs : c ∉ s) : occursIn p s = false := by
  cases h : occursIn p s
  · rfl
  · exact absurd (occursIn_subset p s h c hc) hs

lemma betas_kept_eq (betas : List (List ℚ)) (cols : List String)
    (h : betas.length = cols.length) :
    ((betas.zip (cols.map keepLabel)).filter (·.2)).map (·.1)
      = ((betas.zip cols).filter fun bc => keepLabel bc.2).map (·.1) ∧
    (cols.filter keepLabel).length
      = (((betas.zip cols).filter fun bc => keepLabel bc.2).map (·.1)).length := by
  constructor
  · rw [List.zip_map_right, List.filter_map, List.map_map]
    rfl
  · calc (cols.filter keepLabel).length
        = ((List.map Prod.snd (betas.zip cols)).filter keepLabel).length := by
          rw [List.map_snd_zip _ _ (le_of_eq h.symm)]
      _ = (((betas.zip cols).filter (keepLabel ∘ Prod.snd)).map Prod.snd).length := by
          rw [List.filter_map]
      _ = (((betas.zip cols).filter fun bc => keepLabel bc.2).map (·.1)).length := by
          rw [List.length_map, List.length_map]
          rfl

/-- **C7** `save_beta_series` keeps exactly the beta rows whose column
label contains `smaller`, `larger` or `false` (dropping the constant and
cosine-drift regressors), writes them via the masker's inverse transform,
writes the kept labels with trailing `_number` suffixes removed, and the
number of labels written equals the number of beta rows kept. -/
theorem save_beta_series_spec {ν : Type} (invTransform : List (List ℚ) → ν)
    (betas : List (List ℚ)) (cols : List String)
    (hlen : betas.length = cols.length) :
    (save_beta_series invTransform betas cols).csv_labels.length
      = (save_beta_series invTransform betas cols).betas_kept.length ∧
    (save_beta_series invTransform betas cols).betas_kept
      = ((betas.zip cols).filter fun bc => keepLabel bc.2).map (·.1) ∧
    (save_beta_series invTransform betas cols).csv_labels
      = (cols.filter keepLabel).map stripTrialNum ∧
    (save_beta_series invTransform betas cols).beta_image
      = invTransform (save_beta_series invTransform betas cols).betas_kept ∧
    keepLabel "constant" = false ∧
    (∀ ds : List Char, (∀ c ∈ ds, c.isDigit) →
      keepLabel (String.mk ("cosine".data ++ ds)) = false) := by
  have hb := betas_kept_eq betas cols hlen
  refine ⟨?_, hb.1, rfl, rfl, by decide, ?_⟩
  · show ((cols.filter keepLabel).map stripTrialNum).length = _
    rw [List.length_map]
    rw [show (save_beta_series invTransform betas cols).betas_kept
      = ((betas.zip cols).filter fun bc => keepLabel bc.2).map (·.1) from hb.1]
    exact hb.2
  · intro ds hds
    have hnotin : 'a' ∉ (String.mk ("cosine".data ++ ds)).data := by
      intro hmem
      rw [show (String.mk ("cosine".data ++ ds)).data
        = "cosine".data ++ ds from rfl] at hmem
      rcases List.mem_append.1 hmem with h | h
      · revert h; decide
      · have hd := hds _ h
        simp at hd
    unfold keepLabel strContains
    rw [occursIn_false_of_missing "smaller".data _ 'a' (by decide) hnotin,
      occursIn_false_of_missing "larger".data _ 'a' (by decide) hnotin,
      occursIn_false_of_missing "false".data _ 'a' (by decide) hnotin]
    rfl

/-- Witness for C7 at a concrete three-column design. -/
theorem save_beta_series_spec_witness :
    ([[(1 : ℚ)], [2], [3]] : List (List ℚ)).length
      = (["smaller_sooner_1", "constant", "cosine0"] : List String).length ∧
    (save_beta_series (fun l => l) [[(1 : ℚ)], [2], [3]]
        ["smaller_sooner_1", "constant", "cosine0"]).csv_labels.length
      = (save_beta_series (fun l => l) [[(1 : ℚ)], [2], [3]]
        ["smaller_sooner_1", "constant", "cosine0"]).betas_kept.length := by
  have h : ([[(1 : ℚ)], [2], [3]] : List (List ℚ)).length
      = (["smaller_sooner_1", "constant", "cosine0"] : List String).length := rfl
  exact ⟨h, (save_beta_series_spec (fun l => l) _ _ h).1⟩

/-- **C10** `resolve_file` returns a path iff the kind is one of `bold`,
`mask`, `behav` and exactly one file matches the derived glob pattern; it
raises `ValueError` on an invalid kind, zero matches or multiple matches;
any returned path is one of the matched files. -/
theorem resolve_file_spec (glob : String → List String) (cfg : Cfg)
    (sid kind : String) :
    ((∃ p, resolve_file glob cfg sid kind = Except.ok p)
      ↔ ((kind = "bold" ∨ kind = "mask" ∨ kind = "behav") ∧
          ∃ pat, patternFor cfg sid kind = some pat ∧ (glob pat).length = 1)) ∧
    (∀ p, resolve_file glob cfg sid kind = Except.ok p →
      ∃ pat, patternFor cfg sid kind = some pat ∧ p ∈ glob pat) ∧
    ((patternFor cfg sid kind).isSome = true
      ↔ (kind = "bold" ∨ kind = "mask" ∨ kind = "behav")) ∧
    (∀ e, resolve_file glob cfg sid kind = Except.error e →
      ¬(kind = "bold" ∨ kind = "mask" ∨ kind = "behav")
        ∨ ∃ pat, patternFor cfg sid kind = some pat ∧ (glob pat).length ≠ 1) := by
  have hval : (patternFor cfg sid kind).isSome = true
      ↔ (kind = "bold" ∨ kind = "mask" ∨ kind = "behav") := by
    unfold patternFor
    by_cases h1 : kind = "bold" <;> by_cases h2 : kind = "mask" <;>
      by_cases h3 : kind = "behav" <;> simp [h1, h2, h3]
  cases hp : patternFor cfg sid kind with
  | none =>
    have hnv : ¬(kind = "bold" ∨ kind = "mask" ∨ kind = "behav") := by
      rw [← hval, hp]
      simp
    refine ⟨?_, ?_, by simp [hp, hnv], ?_⟩
    · constructor
      · rintro ⟨p, hq⟩
        simp only [resolve_file, hp] at hq
        exact Except.noConfusion hq
      · rintro ⟨hv, _⟩
        exact absurd hv hnv
    · intro p hq
      simp only [resolve_file, hp] at hq
      exact Except.noConfusion hq
    · intro e _
      exact Or.inl hnv
  | some pat =>
    have hv : kind = "bold" ∨ kind = "mask" ∨ kind = "behav" := by
      rw [← hval, hp]
      rfl
    cases hg : glob pat with
    | nil =>
      refine ⟨?_, ?_, by simp [hp, hv], ?_⟩
      · constructor
        · rintro ⟨p, hq⟩
          simp only [resolve_file, hp, hg] at hq
          exact Except.noConfusion hq
        · rintro ⟨_, pat2, hpat2, hlen2⟩
          cases hpat2
          rw [hg] at hlen2
          simp at hlen2
      · intro p hq
        simp only [resolve_file, hp, hg] at hq
        exact Except.noConfusion hq
      · intro e _
        exact Or.inr ⟨pat, rfl, by rw [hg]; simp⟩
    | cons p0 rest =>
      cases rest with
      | nil =>
        refine ⟨?_, ?_, by simp [hp, hv], ?_⟩
        · constructor
          · rintro ⟨p, _⟩
            exact ⟨hv, pat, rfl, by rw [hg]; rfl⟩
          · rintro _
            exact ⟨p0, by simp only [resolve_file, hp, hg]⟩
        · intro p hq
          simp only [resolve_file, hp, hg, Except.ok.injEq] at hq
          exact ⟨pat, rfl, by rw [hg, ← hq]; exact List.mem_singleton_self _⟩
        · intro e hq
          simp only [resolve_file, hp, hg] at hq
          exact Except.noConfusion hq
      | cons p1 rest2 =>
        refine ⟨?_, ?_, by simp [hp, hv], ?_⟩
        · constructor
          · rintro ⟨p, hq⟩
            simp only [resolve_file, hp, hg] at hq
            exact Except.noConfusion hq
          · rintro ⟨_, pat2, hpat2, hlen2⟩
            cases hpat2
            rw [hg] at hlen2
            simp at hlen2
        · intro p hq
          simp only [resolve_file, hp, hg] at hq
          exact Except.noConfusion hq
        · intro e _
          exact Or.inr ⟨pat, rfl, by rw [hg]; simp⟩

/-- **C8 evidence** With a negative-onset first trial, the surviving
trial keeps its original 1-based position in the label but receives the
*first* trial's choice value: the code produces `smaller_sooner_2` where
the claimed (intended) pairing is `larger_later_2`. -/
theorem mkEvents_misaligned :
    (mkEvents [⟨-1, 1, "smaller_sooner"⟩, ⟨5, 1, "larger_later"⟩]).map
        (·.trial_type) = ["smaller_sooner_2"] ∧
    (specEvents [⟨-1, 1, "smaller_sooner"⟩, ⟨5, 1, "larger_later"⟩]).map
        (·.trial_type) = ["larger_later_2"] := by
  constructor <;> rfl

/-- **C4 evidence** `run_lsa.main` unpacks the 4-tuple returned by
`create_design_matrices` into three names, so for every environment the
run raises `ValueError` right after the design-matrix step: the
load/scale, beta-estimation and save steps never execute, contradicting
the claimed five-step linear pass. -/
theorem run_lsa_main_crashes {δ : Type} (env : PipeEnv δ) (tr : ℚ)
    (subid : String) :
    run_lsa_main env tr subid
      = ([PipelineStep.loadConfig, PipelineStep.buildDesignMatrices],
         Except.error "too many values to unpack") ∧
    PipelineStep.loadScaleBold ∉ (run_lsa_main env tr subid).1 ∧
    PipelineStep.computeBetasStep ∉ (run_lsa_main env tr subid).1 ∧
    PipelineStep.saveOutputs ∉ (run_lsa_main env tr subid).1 := by
  have h : run_lsa_main env tr subid
      = ([PipelineStep.loadConfig, PipelineStep.buildDesignMatrices],
         Except.error "too many values to unpack") := by
    unfold run_lsa_main pyUnpack createDesignMatricesTuple
    simp
  refine ⟨h, ?_, ?_, ?_⟩ <;> rw [h] <;> decide

/-- One loop iteration is characterized by the inclusion conditions: the
status flag and the success payload agree with `codePasses`, and the
status record names the subject. -/
lemma processSubject_spec {δ : Type} (env : PipeEnv δ) (tr : ℚ) (subid : String) :
    ((processSubject env tr (get_exclusion_data env.exclRaw) subid).2.include_flag = true
      ↔ codePasses env tr subid) ∧
    ((processSubject env tr (get_exclusion_data env.exclRaw) subid).1.isSome = true
      ↔ codePasses env tr subid) ∧
    (processSubject env tr (get_exclusion_data env.exclRaw) subid).2.sub_id = subid := by
  unfold processSubject codePasses
  cases hb : env.behav subid with
  | none => simp
  | some rows =>
    by_cases hex : exclCriteriaMet (get_exclusion_data env.exclRaw) subid
    · simp [hex]
    · by_cases hch : hasBothChoices rows
      · cases hbold : env.bold subid with
        | none => simp [hex, hch, hbold]
        | some bf =>
          cases hn : env.nScans bf with
          | none => simp [hex, hch, hbold, hn]
          | some n =>
            by_cases ho : onsetExceeds (mkEvents rows) ((n : ℚ) * tr)
            · simp [hex, hch, hbold, hn, ho]
            · cases hd : env.design (mkEvents rows) n with
              | none => simp [hex, hch, hbold, hn, ho, hd]
              | some dm => simp [hex, hch, hbold, hn, ho, hd]
      · simp [hex, hch]

lemma pipeline_lengths {δ : Type}
    (rs : List (String × (Option (String × δ) × StatusRec))) :
    (rs.filterMap fun r => if r.2.1.isSome then some r.1 else none).length
      = (rs.filterMap fun r => r.2.1.map (·.1)).length ∧
    (rs.filterMap fun r => r.2.1.map (·.1)).length
      = (rs.filterMap fun r => r.2.1.map (·.2)).length := by
  induction rs with
  | nil => exact ⟨rfl, rfl⟩
  | cons r rs ih =>
    rw [List.filterMap_cons, List.filterMap_cons, List.filterMap_cons]
    cases hr : r.2.1 with
    | none => simpa using ih
    | some v => simp [ih.1, ih.2]

lemma pipeline_valid {δ : Type} (g : String → Option (String × δ) × StatusRec) :
    ∀ subids : List String,
    ((subids.map fun s => (s, g s)).filterMap fun r =>
        if r.2.1.isSome then some r.1 else none)
      = subids.filter fun s => (g s).1.isSome
  | [] => rfl
  | s :: ss => by
    rw [List.map_cons, List.filterMap_cons, List.filter_cons]
    have ih := pipeline_valid g ss
    dsimp only
    cases (g s).1 with
    | none => simp only [ih]; simp
    | some v => simp only [ih]; simp

/-- **C2 (amended: the exclusion check uses the first matching discountFix
row)** `create_design_matrices` returns `valid_subids`, `bold_paths` and
`design_matrices` of equal length in input order, one status record per
input subject, and a subject is included iff its behavioral data load, the
exclusion-CSV check on its first matching discountFix row, the
both-choice-types check, BOLD resolution, header reading, the
onset-vs-scan-duration check and design-matrix construction all
succeed. -/
theorem create_design_matrices_spec {δ : Type} (env : PipeEnv δ) (tr : ℚ)
    (subids : List String) :
    (create_design_matrices env tr subids).1.length
      = (create_design_matrices env tr subids).2.1.length ∧
    (create_design_matrices env tr subids).2.1.length
      = (create_design_matrices env tr subids).2.2.1.length ∧
    (create_design_matrices env tr subids).2.2.2.length = subids.length ∧
    (∀ i, i < subids.length →
      ((create_design_matrices env tr subids).2.2.2.getD i ⟨"", false, ""⟩).sub_id
          = subids.getD i "" ∧
      (((create_design_matrices env tr subids).2.2.2.getD i
          ⟨"", false, ""⟩).include_flag = true
          ↔ codePasses env tr (subids.getD i ""))) ∧
    (create_design_matrices env tr subids).1
      = subids.filter fun s =>
          (processSubject env tr (get_exclusion_data env.exclRaw) s).1.isSome := by
  have hL := pipeline_lengths
    (subids.map fun s => (s, processSubject env tr (get_exclusion_data env.exclRaw) s))
  have hV := pipeline_valid
    (processSubject env tr (get_exclusion_data env.exclRaw)) subids
  refine ⟨hL.1, hL.2, ?_, ?_, hV⟩
  · show ((subids.map fun s =>
        (s, processSubject env tr (get_exclusion_data env.exclRaw) s)).map
        fun r => r.2.2).length = _
    rw [List.length_map, List.length_map]
  · intro i hi
    have hstat : (create_design_matrices env tr subids).2.2.2.getD i ⟨"", false, ""⟩
        = (processSubject env tr (get_exclusion_data env.exclRaw)
            (subids.getD i "")).2 := by
      show ((subids.map fun s =>
          (s, processSubject env tr (get_exclusion_data env.exclRaw) s)).map
          fun r => r.2.2).getD i ⟨"", false, ""⟩ = _
      rw [List.getD_eq_getElem _ _
          (by rw [List.length_map, List.length_map]; exact hi),
        List.getElem_map, List.getElem_map, List.getD_eq_getElem _ _ hi]
    rw [hstat]
    exact ⟨(processSubject_spec env tr _).2.2, (processSubject_spec env tr _).1⟩

/-- Witness for C2 on the counterexample environment with one subject. -/
theorem create_design_matrices_spec_witness :
    (0 < (["s1"] : List String).length) ∧
    (((create_design_matrices envCE 1 ["s1"]).2.2.2.getD 0
        ⟨"", false, ""⟩).include_flag = true
      ↔ codePasses envCE 1 "s1") := by
  have h := (create_design_matrices_spec envCE 1 ["s1"]).2.2.2.1 0 (by decide)
  exact ⟨by decide, h.2⟩

/-- Counterexample to C2 as stated: with two discountFix rows for `s1`
(first clean, second carrying a nonzero criterion) the code includes the
subject — only the first matching row is consulted — although the claim's
condition "meets no nonzero criterion in the discountFix rows" fails. -/
theorem create_design_matrices_exclusion_counterexample :
    ((create_design_matrices envCE 1 ["s1"]).2.2.2.map (·.include_flag) = [true]) ∧
    ¬ specExclClean (get_exclusion_data envCE.exclRaw) "s1" := by
  constructor
  · have hstat : (create_design_matrices envCE 1 ["s1"]).2.2.2
        = [(processSubject envCE 1 (get_exclusion_data envCE.exclRaw) "s1").2] := rfl
    rw [hstat, List.map_cons, List.map_nil]
    have hm : mkEvents [⟨0, 1, "smaller_sooner"⟩, ⟨1, 1, "larger_later"⟩]
        = [⟨0, 1, "smaller_sooner_1"⟩, ⟨1, 1, "larger_later_2"⟩] := by decide
    have honset : onsetExceeds
        (mkEvents [⟨0, 1, "smaller_sooner"⟩, ⟨1, 1, "larger_later"⟩])
        (((10 : ℕ) : ℚ) * 1) = false := by
      rw [hm]
      unfold onsetExceeds
      simp only [List.any_cons, List.any_nil, Bool.or_false]
      rw [decide_eq_false (by norm_num), decide_eq_false (by norm_num)]
      rfl
    have hpass : codePasses envCE 1 "s1" := by
      exact ⟨[⟨0, 1, "smaller_sooner"⟩, ⟨1, 1, "larger_later"⟩], rfl, by decide,
        by decide, "bold.nii.gz", rfl, 10, rfl, honset, rfl⟩
    rw [((processSubject_spec envCE 1 "s1").1).mpr hpass]
  · intro h
    have hmem : (⟨"s1", "discountFix", [("crit", 1)]⟩ : ExclRow)
        ∈ get_exclusion_data envCE.exclRaw := by
      have he : get_exclusion_data envCE.exclRaw
          = [⟨"s1", "discountFix", [("crit", 0)]⟩,
             ⟨"s1", "discountFix", [("crit", 1)]⟩] := rfl
      rw [he]
      exact List.mem_cons_of_mem _ (List.mem_cons_self _ _)
    have hc := h _ hmem rfl ("crit", 1) (List.mem_cons_self _ _)
    norm_num at hc

end DDMvpa
